import Mathlib

/-!
Shallow embedding of the workflow-orchestration core of the repository
(`src/migrated_functionality/src/workflow_engine.py` and
`src/migrated_functionality/src/complete_n8n_workflow_integration.py`)
together with theorems settling the specification claims.

Timestamps and durations are modelled as rationals (`ℚ`), mirroring the
Python `time.time()` floats; all comparisons in the source are order
comparisons, so the embedding is faithful at that level.
-/

namespace Orchestration

/-! ### Circuit breaker (`complete_n8n_workflow_integration.py`, class `CircuitBreaker`) -/

/-- The three states of `CircuitBreaker.state`: "CLOSED", "OPEN", "HALF_OPEN". -/
inductive CBState where
  | closed
  | opened
  | halfOpen
deriving DecidableEq, Repr

/-- Fields of `CircuitBreaker.__init__`: configuration plus mutable fields
`failure_count`, `last_failure_time` (initially `None`), `state` (initially CLOSED). -/
structure CircuitBreaker where
  failureThreshold : Nat
  recoveryTimeout : ℚ
  failureCount : Nat
  lastFailureTime : Option ℚ
  state : CBState
deriving DecidableEq, Repr

/-- Constructor defaults of `CircuitBreaker(failure_threshold, recovery_timeout)`. -/
def CircuitBreaker.init (failureThreshold : Nat) (recoveryTimeout : ℚ) : CircuitBreaker :=
  { failureThreshold := failureThreshold
    recoveryTimeout := recoveryTimeout
    failureCount := 0
    lastFailureTime := none
    state := .closed }

/-- Source method `CircuitBreaker.can_execute`: returns whether the call is admitted and the
(possibly OPEN → HALF_OPEN transitioned) breaker.  In the OPEN branch the
source computes `time.time() - self.last_failure_time`; that field is always
set when the state is OPEN (it is stamped by `record_failure`), so the
`getD 0` default is never reached from a reachable state. -/
def CircuitBreaker.canExecute (cb : CircuitBreaker) (now : ℚ) : Bool × CircuitBreaker :=
  match cb.state with
  | .closed => (true, cb)
  | .opened =>
      if now - (cb.lastFailureTime.getD 0) ≥ cb.recoveryTimeout then
        (true, { cb with state := .halfOpen })
      else
        (false, cb)
  | .halfOpen => (true, cb)

/-- Source method `CircuitBreaker.record_success`: resets `failure_count` and closes. -/
def CircuitBreaker.recordSuccess (cb : CircuitBreaker) : CircuitBreaker :=
  { cb with failureCount := 0, state := .closed }

/-- Source method `CircuitBreaker.record_failure`: bumps the count, stamps the time and
opens once the count reaches the threshold. -/
def CircuitBreaker.recordFailure (cb : CircuitBreaker) (now : ℚ) : CircuitBreaker :=
  if cb.failureCount + 1 ≥ cb.failureThreshold then
    { cb with failureCount := cb.failureCount + 1, lastFailureTime := some now,
              state := .opened }
  else
    { cb with failureCount := cb.failureCount + 1, lastFailureTime := some now }

/-- Iterate `record_failure` `n` times (consecutive failures, no intervening
success), with all failures stamped at time `now`. -/
def CircuitBreaker.recordFailures (cb : CircuitBreaker) (now : ℚ) : Nat → CircuitBreaker
  | 0 => cb
  | n + 1 => (cb.recordFailure now).recordFailures now n

/-! ### Rate limiter (`IZAOSWorkflowIntegrator._check_rate_limit`) -/

/-- Source method `IZAOSWorkflowIntegrator._check_rate_limit` for one `(operation, identifier)` key.  `window` is the
stored list `self.rate_limiter[key]` of admitted-request timestamps; the
single config value `api_rate_limit` serves both as the window length in
seconds and as the request-count cap, exactly as in the source.  Returns the
admit decision and the updated stored list. -/
def checkRateLimit (now : ℚ) (apiRateLimit : Nat) (window : List ℚ) : Bool × List ℚ :=
  let pruned := window.filter (fun ts => now - ts < (apiRateLimit : ℚ))
  if pruned.length ≥ apiRateLimit then
    (false, pruned)
  else
    (true, pruned ++ [now])

/-! ### Retry wrapper (`IZAOSWorkflowIntegrator._execute_with_retry`) -/

/-- Outcome of `_execute_with_retry`: the circuit breaker rejected the call
(`CircuitBreakerOpenError`), the wrapped call returned a value, the last
exception was re-raised, or — with `retry_attempts = 0` — the `for` loop body
never ran and the function fell through returning `None`. -/
inductive RetryOutcome (α : Type) where
  | circuitRejected
  | value (a : α)
  | raised (e : String)
  | noneReturned
deriving DecidableEq, Repr

/-- Observable trace of one `_execute_with_retry` call: its outcome, the
back-off sleeps performed (in order), how many times the wrapped call was
awaited, and the circuit breaker left behind. -/
structure RetryTrace (α : Type) where
  outcome : RetryOutcome α
  sleeps : List ℚ
  attemptsMade : Nat
  breaker : CircuitBreaker
deriving DecidableEq, Repr

/-- The `for attempt in range(retry_attempts)` loop of `_execute_with_retry`.
`outcomes i` is the result of awaiting the wrapped call on the attempt with
0-based index `i`; `k` is the current attempt index and `remaining` the number
of attempts still available (including the current one).  All breaker stamps
use time `now` (the elapsed response times only feed the performance monitor,
which no claim touches). -/
def retryLoop (delay : ℚ) (outcomes : Nat → Except String α) (now : ℚ) :
    Nat → Nat → CircuitBreaker → RetryTrace α
  | _, 0, cb => ⟨.noneReturned, [], 0, cb⟩
  | k, remaining + 1, cb =>
      match outcomes k with
      | .ok a => ⟨.value a, [], 1, cb.recordSuccess⟩
      | .error e =>
          let cb' := cb.recordFailure now
          if remaining = 0 then
            ⟨.raised e, [], 1, cb'⟩
          else
            let rest := retryLoop delay outcomes now (k + 1) remaining cb'
            ⟨rest.outcome, delay * 2 ^ k :: rest.sleeps, rest.attemptsMade + 1, rest.breaker⟩

/-- Source method `_execute_with_retry`: a circuit-breaker admission check followed by the
retry loop starting at attempt index 0 with `retry_attempts` attempts. -/
def executeWithRetry (retryAttempts : Nat) (delay : ℚ) (cb : CircuitBreaker)
    (now : ℚ) (outcomes : Nat → Except String α) : RetryTrace α :=
  let gate := cb.canExecute now
  if gate.1 then
    retryLoop delay outcomes now 0 retryAttempts gate.2
  else
    ⟨.circuitRejected, [], 0, gate.2⟩

end Orchestration

namespace Orchestration

/-! ### Circuit-breaker reachability -/

/-- One mutation of the breaker: a `can_execute` check, a recorded success or
a recorded failure. -/
inductive CBStep : CircuitBreaker → CircuitBreaker → Prop where
  | exec (cb : CircuitBreaker) (now : ℚ) : CBStep cb (cb.canExecute now).2
  | success (cb : CircuitBreaker) : CBStep cb cb.recordSuccess
  | failure (cb : CircuitBreaker) (now : ℚ) : CBStep cb (cb.recordFailure now)

/-- Breaker states reachable from the constructor state. -/
def CBReachable (threshold : Nat) (timeout : ℚ) (cb : CircuitBreaker) : Prop :=
  Relation.ReflTransGen CBStep (CircuitBreaker.init threshold timeout) cb

end Orchestration

/-! ### Workflow engine data model (`workflow_engine.py`) -/

/-- Modelled from the spec: `TaskPriority` lives in the absent module
`task_queue.py`; §3 gives the four priorities LOW/NORMAL/HIGH/CRITICAL. -/
inductive TaskPriority where
  | low
  | normal
  | high
  | critical
deriving DecidableEq, Repr

/-- Modelled from the spec: `TaskStatus` lives in the absent module
`task_queue.py`; §3/§4.2 give PENDING/ASSIGNED/RUNNING/COMPLETED/FAILED/CANCELLED. -/
inductive TaskStatus where
  | pending
  | assigned
  | running
  | completed
  | failed
  | cancelled
deriving DecidableEq, Repr

/-- Membership in the list `[TaskStatus.COMPLETED, TaskStatus.FAILED,
TaskStatus.CANCELLED]` tested by `_monitor_task_execution` (line 327). -/
def TaskStatus.isTerminal : TaskStatus → Bool
  | .completed => true
  | .failed => true
  | .cancelled => true
  | _ => false

/-- Enum `WorkflowStatus` (lines 18–24). -/
inductive WorkflowStatus where
  | pending
  | running
  | completed
  | failed
  | cancelled
deriving DecidableEq, Repr

/-- Enum `WorkflowPhase` (lines 26–32). -/
inductive WorkflowPhase where
  | initialization
  | agentSelection
  | taskExecution
  | resultProcessing
  | completion
deriving DecidableEq, Repr

/-- Task data handed to the queue: `Task(task_type, payload, priority)` as
constructed by `_create_workflow_tasks`.  A payload is a string-keyed map
whose values may be `None` (`payload.get(...)` misses). -/
structure TaskSpec where
  taskType : String
  payload : List (String × Option String)
  priority : TaskPriority
deriving DecidableEq, Repr

/-- Python `dict.get` on a string-valued workflow payload. -/
def lookupPayload (p : List (String × String)) (k : String) : Option String :=
  (p.find? (fun e => e.1 = k)).map (fun e => e.2)

/-- Source method `WorkflowEngine._create_workflow_tasks` (lines 374–395):
`site_recreation` and `business_analysis` get fixed chains; every other
workflow type falls into the `else` branch producing the single generic
`execute_workflow` task carrying the workflow payload. -/
def createWorkflowTasks (workflowType : String) (payload : List (String × String))
    (priority : TaskPriority) : List TaskSpec :=
  if workflowType = "site_recreation" then
    [ ⟨"analyze_site", [("url", lookupPayload payload "url")], priority⟩,
      ⟨"design_interface", [("requirements", lookupPayload payload "requirements")], priority⟩,
      ⟨"generate_code", [("design", some "from_previous_task")], priority⟩,
      ⟨"test_quality", [("code", some "from_previous_task")], priority⟩ ]
  else if workflowType = "business_analysis" then
    [ ⟨"analyze_portfolio", [("businesses", lookupPayload payload "businesses")], priority⟩,
      ⟨"financial_analysis", [("data", some "from_previous_task")], priority⟩,
      ⟨"generate_report", [("analysis", some "from_previous_task")], priority⟩ ]
  else
    [ ⟨"execute_workflow", payload.map (fun e => (e.1, some e.2)), priority⟩ ]

/-- Mutable fields of class `Workflow` (lines 34–52) used by the claims.
Task ids are modelled as naturals drawn from the queue's counter (the source
uses fresh uuid strings; only freshness matters). -/
structure Workflow where
  workflowType : String
  payload : List (String × String)
  priority : TaskPriority
  status : WorkflowStatus
  currentPhase : WorkflowPhase
  startedAt : Option ℚ
  completedAt : Option ℚ
  assignedAgents : List String
  tasks : List Nat
  results : List (Nat × Option String)
  error : Option String
deriving DecidableEq, Repr

/-- Constructor `Workflow.__init__` (lines 37–52). -/
def Workflow.make (workflowType : String) (payload : List (String × String))
    (priority : TaskPriority) : Workflow :=
  { workflowType := workflowType
    payload := payload
    priority := priority
    status := .pending
    currentPhase := .initialization
    startedAt := none
    completedAt := none
    assignedAgents := []
    tasks := []
    results := []
    error := none }

/-! ### Task queue (modelled from the spec, §4.2 — `task_queue.py` is not in
the sources) -/

/-- Per-task record held by the queue: the submitted task data plus the
status-machine fields of §3. -/
structure TaskRec where
  taskData : TaskSpec
  status : TaskStatus
  assignedAgent : Option String
  result : Option String
deriving DecidableEq, Repr

/-- Modelled from the spec: the Task Queue of §4.2, an id-keyed store of task
records; `nextId` is the id supply (the spec only requires ids be unique). -/
structure TaskQueue where
  tasks : List (Nat × TaskRec)
  nextId : Nat
deriving DecidableEq, Repr

/-- The empty queue. -/
def TaskQueue.empty : TaskQueue := { tasks := [], nextId := 0 }

/-- Modelled from the spec: `enqueue(task)` — "assigns id, sets
status=PENDING, places in priority bucket. Returns id" (§4.2). -/
def TaskQueue.enqueueTask (q : TaskQueue) (t : TaskSpec) : Nat × TaskQueue :=
  (q.nextId,
   { tasks := q.tasks ++ [(q.nextId, ⟨t, .pending, none, none⟩)],
     nextId := q.nextId + 1 })

/-- Modelled from the spec: `assign(task_id, agent_id)` — PENDING → ASSIGNED,
fails if not PENDING (§4.2); unknown ids fail (§4.1-style empty result). -/
def TaskQueue.assignAgent (q : TaskQueue) (id : Nat) (agentId : String) :
    Bool × TaskQueue :=
  match q.tasks.find? (fun e => e.1 = id) with
  | none => (false, q)
  | some (_, r) =>
      if r.status = .pending then
        (true,
         { q with tasks := q.tasks.map (fun e =>
             if e.1 = id then (e.1, { r with status := .assigned, assignedAgent := some agentId })
             else e) })
      else
        (false, q)

/-- Modelled from the spec: `status(task_id)` — a snapshot of the task record
(§4.2); `None` for unknown ids. -/
def TaskQueue.getTaskStatus (q : TaskQueue) (id : Nat) : Option TaskRec :=
  (q.tasks.find? (fun e => e.1 = id)).map (fun e => e.2)

/-- Modelled from the spec: `cancel(task_id)` — any non-terminal → CANCELLED;
on a terminal state returns false (§4.2). -/
def TaskQueue.cancelTask (q : TaskQueue) (id : Nat) : Bool × TaskQueue :=
  match q.tasks.find? (fun e => e.1 = id) with
  | none => (false, q)
  | some (_, r) =>
      if r.status.isTerminal then
        (false, q)
      else
        (true,
         { q with tasks := q.tasks.map (fun e =>
             if e.1 = id then (e.1, { r with status := .cancelled }) else e) })

/-- Modelled from the spec: `start(task_id)` — ASSIGNED → RUNNING (§4.2). -/
def TaskQueue.startTask (q : TaskQueue) (id : Nat) : Bool × TaskQueue :=
  match q.tasks.find? (fun e => e.1 = id) with
  | none => (false, q)
  | some (_, r) =>
      if r.status = .assigned then
        (true,
         { q with tasks := q.tasks.map (fun e =>
             if e.1 = id then (e.1, { r with status := .running }) else e) })
      else
        (false, q)

/-- Modelled from the spec: `complete(task_id, result, error?)` — RUNNING →
COMPLETED when no error, else FAILED; idempotent-reject on terminal states
(§4.2).  The engine's `handle_results` delegates to this. -/
def TaskQueue.completeTask (q : TaskQueue) (id : Nat) (result : Option String)
    (err : Option String) : Bool × TaskQueue :=
  match q.tasks.find? (fun e => e.1 = id) with
  | none => (false, q)
  | some (_, r) =>
      if r.status = .running then
        (true,
         { q with tasks := q.tasks.map (fun e =>
             if e.1 = id then
               (e.1, { r with status := if err = none then .completed else .failed,
                              result := result })
             else e) })
      else
        (false, q)

/-! ### Workflow engine operations (`workflow_engine.py`, class `WorkflowEngine`) -/

/-- Source method `WorkflowEngine._execute_agent_tasks`, enqueue part
(lines 300–313): create the template tasks, enqueue each, append its id to
`workflow.tasks`, and — when `assigned_agents` is non-empty — assign the task
to `assigned_agents[0]`.  The adjacent source comment reads "Simple
round-robin" but the index never advances past 0. -/
def enqueueStep (acc : Workflow × TaskQueue) (t : TaskSpec) : Workflow × TaskQueue :=
  let enq := acc.2.enqueueTask t
  let wf1 := { acc.1 with tasks := acc.1.tasks ++ [enq.1] }
  match wf1.assignedAgents with
  | [] => (wf1, enq.2)
  | a :: _ => (wf1, (enq.2.assignAgent enq.1 a).2)

/-- The enqueue-and-assign loop over the created template tasks. -/
def executeAgentTasksEnqueue (wf : Workflow) (q : TaskQueue) : Workflow × TaskQueue :=
  (createWorkflowTasks wf.workflowType wf.payload wf.priority).foldl enqueueStep (wf, q)

/-- One polling pass of `_monitor_task_execution` (lines 320–337): every id in
`workflow.tasks` whose queue status is terminal
(COMPLETED/FAILED/CANCELLED) is collected and then removed from
`workflow.tasks`; unknown ids are kept.  The ids the engine puts into
`workflow.tasks` are pairwise distinct, so the source's repeated
`list.remove` equals this filter. -/
def monitorPass (q : TaskQueue) (wf : Workflow) : Workflow :=
  { wf with tasks := wf.tasks.filter (fun id =>
      match q.getTaskStatus id with
      | some r => !r.status.isTerminal
      | none => true) }

/-- The `while workflow.tasks:` loop of `_monitor_task_execution`
(lines 318–343), polling against a fixed queue; the fuel counts polling
rounds and `none` models the loop never exiting (with a fixed queue a
non-empty residue never shrinks further). -/
def monitorLoop (q : TaskQueue) : Nat → Workflow → Option Workflow
  | 0, _ => none
  | fuel + 1, wf =>
      if wf.tasks.isEmpty then some wf
      else
        let wf' := monitorPass q wf
        if wf'.tasks.isEmpty then some wf'
        else monitorLoop q fuel wf'

/-- Source method `WorkflowEngine._process_results` (lines 345–354): set the
phase and, for every id still in `workflow.tasks`, copy the queue result into
`workflow.results[task_id]` when that task's status is COMPLETED. -/
def processResults (q : TaskQueue) (wf : Workflow) : Workflow :=
  let wf1 := { wf with currentPhase := WorkflowPhase.resultProcessing }
  { wf1 with results := wf1.tasks.foldl (fun rs id =>
      match q.getTaskStatus id with
      | some r => if r.status = .completed then rs ++ [(id, r.result)] else rs
      | none => rs) wf1.results }

/-- Source method `WorkflowEngine._complete_workflow` (lines 356–361). -/
def completeWorkflow (now : ℚ) (wf : Workflow) : Workflow :=
  { wf with currentPhase := WorkflowPhase.completion,
            status := WorkflowStatus.completed,
            completedAt := some now }

/-- Phases 3–5 of `_execute_workflow` on the agent route (no
`metadata.n8n_workflow_id`): enqueue the template tasks, let the external
agents drive the queue (`agentWork`, standing for the `handle_results` calls
that happen while the engine polls), monitor until `workflow.tasks` drains,
process results, complete.  Returns `none` when the monitor loop never
exits. -/
def runAgentRoute (now : ℚ) (fuel : Nat) (agentWork : TaskQueue → TaskQueue)
    (wf : Workflow) (q : TaskQueue) : Option (Workflow × TaskQueue) :=
  let step1 := executeAgentTasksEnqueue { wf with currentPhase := .taskExecution } q
  let q2 := agentWork step1.2
  match monitorLoop q2 fuel step1.1 with
  | none => none
  | some wf2 => some (completeWorkflow now (processResults q2 wf2), q2)

/-- Engine-level state for `cancel_workflow` and `get_workflow_stats`:
`self.workflows` and the id set of `self.running_workflows` (the engine-internal
asyncio execution tasks), plus the shared queue. -/
structure EngineState where
  workflows : List (String × Workflow)
  runningWorkflows : List String
  queue : TaskQueue
deriving DecidableEq, Repr

/-- Observable effects issued by `cancel_workflow`: whether
`running_workflows[workflow_id].cancel()` was called, and the task ids a
queue cancel was issued for. -/
structure CancelEffects where
  internalCancelled : Bool
  taskCancels : List Nat
deriving DecidableEq, Repr

/-- Source method `WorkflowEngine.cancel_workflow` (lines 413–435): `False`
for unknown ids and for workflows already in COMPLETED/FAILED/CANCELLED;
otherwise cancel the engine-internal execution task (when one is running),
issue a queue cancel for every id in `workflow.tasks`, set status=CANCELLED
and `completed_at`, and return `True`. -/
def cancelWorkflow (now : ℚ) (st : EngineState) (wid : String) :
    Bool × EngineState × CancelEffects :=
  match st.workflows.find? (fun e => e.1 = wid) with
  | none => (false, st, ⟨false, []⟩)
  | some (_, wf) =>
      if wf.status = .completed ∨ wf.status = .failed ∨ wf.status = .cancelled then
        (false, st, ⟨false, []⟩)
      else
        let q' := wf.tasks.foldl (fun q id => (q.cancelTask id).2) st.queue
        let wf' := { wf with status := WorkflowStatus.cancelled, completedAt := some now }
        (true,
         { st with
             workflows := st.workflows.map (fun e => if e.1 = wid then (wid, wf') else e),
             queue := q' },
         ⟨st.runningWorkflows.contains wid, wf.tasks⟩)

/-- The `except asyncio.CancelledError` branch of
`WorkflowEngine._execute_workflow` (lines 128–131): runs inside the cancelled
execution task, after `cancel_workflow` has already returned, and
unconditionally re-stamps `completed_at = datetime.now()`. -/
def cancelledHandler (now : ℚ) (wf : Workflow) : Workflow :=
  { wf with status := WorkflowStatus.cancelled, completedAt := some now }

/-- Statistics record returned by `get_workflow_stats` (lines 476–492). -/
structure WorkflowStats where
  totalWorkflows : Nat
  pendingWorkflows : Nat
  runningWorkflows : Nat
  completedWorkflows : Nat
  failedWorkflows : Nat
  cancelledWorkflows : Nat
deriving DecidableEq, Repr

/-- Source method `WorkflowEngine.get_workflow_stats` (lines 476–492) over the
values of `self.workflows`. -/
def getWorkflowStats (ws : List Workflow) : WorkflowStats :=
  { totalWorkflows := ws.length
    pendingWorkflows := (ws.filter (fun w => w.status = .pending)).length
    runningWorkflows := (ws.filter (fun w => w.status = .running)).length
    completedWorkflows := (ws.filter (fun w => w.status = .completed)).length
    failedWorkflows := (ws.filter (fun w => w.status = .failed)).length
    cancelledWorkflows := (ws.filter (fun w => w.status = .cancelled)).length }

/-! ### safe_camel_case (`complete_n8n_workflow_integration.py`, lines 339–374)

Strings are modelled as `List Char`.  Python's `str.split()` splits on
whitespace and drops empty fragments; `str.lower`/`str.capitalize` are
modelled on the ASCII range (identity elsewhere), which is exact for the
separator/whitespace behaviour the claims are about. -/

/-- Whitespace recognised by Python's no-argument `str.split`, ASCII range. -/
def pyIsSpace (c : Char) : Bool :=
  c == ' ' || c == '\t' || c == '\n' || c == '\r' || c == '\x0b' || c == '\x0c'

/-- ASCII upper/lower pairs for Python case conversion. -/
def caseTable : List (Char × Char) :=
  [('A', 'a'), ('B', 'b'), ('C', 'c'), ('D', 'd'), ('E', 'e'), ('F', 'f'),
   ('G', 'g'), ('H', 'h'), ('I', 'i'), ('J', 'j'), ('K', 'k'), ('L', 'l'),
   ('M', 'm'), ('N', 'n'), ('O', 'o'), ('P', 'p'), ('Q', 'q'), ('R', 'r'),
   ('S', 's'), ('T', 't'), ('U', 'u'), ('V', 'v'), ('W', 'w'), ('X', 'x'),
   ('Y', 'y'), ('Z', 'z')]

/-- Python `str.lower` on one character (ASCII). -/
def pyToLower (c : Char) : Char :=
  ((caseTable.find? (fun p => p.1 == c)).map (fun p => p.2)).getD c

/-- Python `str.upper` on one character (ASCII), as used by the first
character of `str.capitalize`. -/
def pyToUpper (c : Char) : Char :=
  ((caseTable.find? (fun p => p.2 == c)).map (fun p => p.1)).getD c

/-- Python `word.lower()`. -/
def pyLowerWord (w : List Char) : List Char := w.map pyToLower

/-- Python `word.capitalize()`: first character uppercased, rest lowercased. -/
def pyCapitalizeWord : List Char → List Char
  | [] => []
  | c :: cs => pyToUpper c :: cs.map pyToLower

/-- Worker for Python's `str.split()`: `acc` holds the reversed current
fragment; empty fragments are dropped. -/
def pySplitAux : List Char → List Char → List (List Char)
  | [], acc => if acc.isEmpty then [] else [acc.reverse]
  | c :: cs, acc =>
      if pyIsSpace c then
        if acc.isEmpty then pySplitAux cs []
        else acc.reverse :: pySplitAux cs []
      else pySplitAux cs (c :: acc)

/-- Python `str.split()` with no argument. -/
def pySplit (s : List Char) : List (List Char) := pySplitAux s []

/-- The `text.replace('_', ' ').replace('-', ' ')` step (line 364). -/
def replaceSeps (s : List Char) : List Char :=
  s.map (fun c => if c == '_' || c == '-' then ' ' else c)

/-- Source function `safe_camel_case` (lines 339–374): empty input is returned
unchanged; separators become spaces and the text is whitespace-split; a
wordless input is returned unchanged; otherwise the first word is lowercased
and every later word capitalized, concatenated with nothing in between. -/
def safe_camel_case (s : List Char) : List Char :=
  if s.isEmpty then s
  else
    match pySplit (replaceSeps s) with
    | [] => s
    | w :: ws => pyLowerWord w ++ (ws.map pyCapitalizeWord).flatten

/-! ### Concrete scenario states used as inputs to the theorems -/

/-- A running `business_analysis` workflow with two selected agents. -/
def wfTwoAgentsEx : Workflow :=
  { Workflow.make "business_analysis" [("businesses", "b1")] .normal with
      status := WorkflowStatus.running, startedAt := some 5,
      assignedAgents := ["A1", "A2"] }

/-- A running `business_analysis` workflow whose single queue task (id 0) is
still assigned. -/
def wfRunningEx : Workflow :=
  { Workflow.make "business_analysis" [("businesses", "b1")] .normal with
      status := WorkflowStatus.running, startedAt := some 5, tasks := [0] }

/-- Engine state holding `wfRunningEx` under id "w1" with its execution task
in flight. -/
def engineEx : EngineState :=
  { workflows := [("w1", wfRunningEx)]
    runningWorkflows := ["w1"]
    queue := { tasks := [(0, ⟨⟨"analyze_portfolio", [("businesses", some "b1")], .normal⟩,
                 .assigned, some "A1", none⟩)], nextId := 1 } }

/-- The same workflow after normal completion (terminal state). -/
def wfDoneEx : Workflow :=
  { wfRunningEx with status := WorkflowStatus.completed, completedAt := some 9 }

/-- Engine state holding the completed workflow. -/
def engineDoneEx : EngineState :=
  { engineEx with workflows := [("w1", wfDoneEx)] }

/-- The S1 scenario workflow: `business_analysis` with the single selected
agent "A1". -/
def wfS1Ex : Workflow :=
  { Workflow.make "business_analysis" [("businesses", "b1")] .normal with
      status := WorkflowStatus.running, startedAt := some 5,
      assignedAgents := ["A1"] }

/-- Environment action for the S1 scenario: the agent runs all three queued
tasks to COMPLETED with results, through the queue's start/complete API. -/
def agentWorkEx (q : TaskQueue) : TaskQueue :=
  let q1 := ((q.startTask 0).2.completeTask 0 (some "r0") none).2
  let q2 := ((q1.startTask 1).2.completeTask 1 (some "r1") none).2
  ((q2.startTask 2).2.completeTask 2 (some "r2") none).2

/-! ## Theorems -/

namespace Orchestration

/-- The count invariant is preserved by every breaker step: a non-CLOSED state
always carries `failure_count ≥ failure_threshold`. -/
theorem cbStep_count (cb cb' : CircuitBreaker) (h : CBStep cb cb')
    (inv : cb.state ≠ .closed → cb.failureThreshold ≤ cb.failureCount) :
    cb'.state ≠ .closed → cb'.failureThreshold ≤ cb'.failureCount := by
  cases h with
  | exec now =>
      cases hcs : cb.state with
      | closed => simp [CircuitBreaker.canExecute, hcs]
      | opened =>
          have hbase := inv (by simp [hcs])
          by_cases hrec : now - (cb.lastFailureTime.getD 0) ≥ cb.recoveryTimeout <;>
            simp [CircuitBreaker.canExecute, hcs, hrec, hbase]
      | halfOpen =>
          have hbase := inv (by simp [hcs])
          simp [CircuitBreaker.canExecute, hcs, hbase]
  | success => intro hs; simp [CircuitBreaker.recordSuccess] at hs
  | failure now =>
      by_cases hth : cb.failureCount + 1 ≥ cb.failureThreshold
      · intro _
        simp [CircuitBreaker.recordFailure, hth]
      · intro hs
        simp only [CircuitBreaker.recordFailure, if_neg hth] at hs ⊢
        exact Nat.le_succ_of_le (inv hs)

/-- In every reachable non-CLOSED state the failure count has already hit the
threshold (OPEN is only entered when `failure_count ≥ failure_threshold`, and
neither `can_execute` nor the OPEN → HALF_OPEN transition changes the count). -/
theorem cbReachable_count (threshold : Nat) (timeout : ℚ) (cb : CircuitBreaker)
    (h : CBReachable threshold timeout cb) :
    cb.state ≠ .closed → cb.failureThreshold ≤ cb.failureCount := by
  induction h with
  | refl => intro h'; exact absurd rfl h'
  | tail _ step ih => exact cbStep_count _ _ step ih

/-- Projection facts of `record_failure` used below. -/
theorem recordFailure_fields (cb : CircuitBreaker) (now : ℚ) :
    (cb.recordFailure now).failureCount = cb.failureCount + 1 ∧
    (cb.recordFailure now).failureThreshold = cb.failureThreshold := by
  unfold CircuitBreaker.recordFailure
  split <;> exact ⟨rfl, rfl⟩

/-- From any state, `n ≥ 1` consecutive failures whose count reaches the
threshold leave the breaker OPEN. -/
theorem recordFailures_opened (cb : CircuitBreaker) (now : ℚ) (n : Nat)
    (h1 : 1 ≤ n) (h2 : cb.failureThreshold ≤ cb.failureCount + n) :
    (cb.recordFailures now n).state = .opened := by
  induction n generalizing cb with
  | zero => omega
  | succ m ih =>
      by_cases hm : m = 0
      · subst hm
        show ((cb.recordFailure now).recordFailures now 0).state = .opened
        unfold CircuitBreaker.recordFailures CircuitBreaker.recordFailure
        rw [if_pos (by omega)]
      · show ((cb.recordFailure now).recordFailures now m).state = .opened
        refine ih _ (by omega) ?_
        have hf := recordFailure_fields cb now
        rw [hf.1, hf.2]
        omega

/-- Claim C2 counterexample: with `failure_threshold = 1` and
`recovery_timeout = 5`, a failure at time 0 opens the breaker; at time 5 a
first `can_execute` probe is admitted and moves the state to HALF_OPEN, and a
second `can_execute` call with no recorded outcome in between is admitted as
well — the implementation does not limit HALF_OPEN to exactly one probe. -/
theorem halfOpen_admits_second_probe :
    (((CircuitBreaker.init 1 5).recordFailure 0).canExecute 5).1 = true ∧
    (((CircuitBreaker.init 1 5).recordFailure 0).canExecute 5).2.state = .halfOpen ∧
    ((((CircuitBreaker.init 1 5).recordFailure 0).canExecute 5).2.canExecute 5).1 = true ∧
    ((((CircuitBreaker.init 1 5).recordFailure 0).canExecute 5).2.canExecute 5).2.state
      = .halfOpen := by
  norm_num [CircuitBreaker.init, CircuitBreaker.recordFailure, CircuitBreaker.canExecute,
    Option.getD]

/-- Claim C2 (amended): the circuit-breaker state machine as implemented.  In
CLOSED every call is admitted, and `failure_threshold` (≥ 1) consecutive
`record_failure` calls with no intervening `record_success` leave the state
OPEN; in OPEN, `can_execute` rejects while `now − last_failure_time <
recovery_timeout` and otherwise transitions to HALF_OPEN, admitting the call;
in HALF_OPEN every `can_execute` call is admitted while the state stays
HALF_OPEN (the implementation does not limit HALF_OPEN to a single probe);
`record_success` returns to CLOSED with `failure_count = 0`; and in every
reachable HALF_OPEN state `record_failure` returns to OPEN. -/
theorem circuitBreaker_machine (cb : CircuitBreaker) (now t : ℚ) :
    (cb.state = .closed → cb.canExecute now = (true, cb)) ∧
    (1 ≤ cb.failureThreshold →
      (cb.recordFailures now cb.failureThreshold).state = .opened) ∧
    (cb.state = .opened → cb.lastFailureTime = some t →
      ((now - t < cb.recoveryTimeout → cb.canExecute now = (false, cb)) ∧
       (cb.recoveryTimeout ≤ now - t →
         cb.canExecute now = (true, { cb with state := .halfOpen })))) ∧
    (cb.state = .halfOpen → cb.canExecute now = (true, cb)) ∧
    cb.recordSuccess = { cb with failureCount := 0, state := .closed } ∧
    (∀ threshold : Nat, ∀ timeout : ℚ, CBReachable threshold timeout cb →
      cb.state = .halfOpen → (cb.recordFailure now).state = .opened) := by
  refine ⟨?_, ?_, ?_, ?_, rfl, ?_⟩
  · intro h; simp [CircuitBreaker.canExecute, h]
  · intro h
    exact recordFailures_opened cb now _ h (Nat.le_add_left _ _)
  · intro hs hl
    constructor
    · intro hlt
      simp [CircuitBreaker.canExecute, hs, hl, not_le.mpr hlt]
    · intro hge
      simp [CircuitBreaker.canExecute, hs, hl, hge]
  · intro h; simp [CircuitBreaker.canExecute, h]
  · intro threshold timeout hreach hs
    have hcount := cbReachable_count threshold timeout cb hreach (by simp [hs])
    unfold CircuitBreaker.recordFailure
    rw [if_pos (by omega)]

/-- Witness for `circuitBreaker_machine` at concrete breakers: the default
CLOSED breaker admits and opens after 5 failures; a concrete OPEN breaker
(threshold 1, timeout 5, failure at time 0) rejects at time 3 and admits at
time 5 moving to HALF_OPEN; that HALF_OPEN breaker (which is reachable)
admits again and re-opens on a failure. -/
theorem circuitBreaker_machine_witness :
    (CircuitBreaker.init 5 60).canExecute 0 = (true, CircuitBreaker.init 5 60) ∧
    ((CircuitBreaker.init 5 60).recordFailures 0 5).state = .opened ∧
    (CircuitBreaker.mk 1 5 1 (some 0) .opened).canExecute 3
      = (false, CircuitBreaker.mk 1 5 1 (some 0) .opened) ∧
    (CircuitBreaker.mk 1 5 1 (some 0) .opened).canExecute 5
      = (true, CircuitBreaker.mk 1 5 1 (some 0) .halfOpen) ∧
    (CircuitBreaker.mk 1 5 1 (some 0) .halfOpen).canExecute 5
      = (true, CircuitBreaker.mk 1 5 1 (some 0) .halfOpen) ∧
    ((CircuitBreaker.mk 1 5 1 (some 0) .halfOpen).recordFailure 6).state = .opened := by
  have hfail : (CircuitBreaker.init 1 5).recordFailure 0
      = CircuitBreaker.mk 1 5 1 (some 0) .opened := by
    norm_num [CircuitBreaker.init, CircuitBreaker.recordFailure]
  have hprobe : ((CircuitBreaker.mk 1 5 1 (some 0) .opened).canExecute 5).2
      = CircuitBreaker.mk 1 5 1 (some 0) .halfOpen := by
    norm_num [CircuitBreaker.canExecute, Option.getD]
  have s1 : CBStep (CircuitBreaker.init 1 5) (CircuitBreaker.mk 1 5 1 (some 0) .opened) :=
    hfail ▸ CBStep.failure (CircuitBreaker.init 1 5) 0
  have s2 : CBStep (CircuitBreaker.mk 1 5 1 (some 0) .opened)
      (CircuitBreaker.mk 1 5 1 (some 0) .halfOpen) :=
    hprobe ▸ CBStep.exec (CircuitBreaker.mk 1 5 1 (some 0) .opened) 5
  have hreach : CBReachable 1 5 (CircuitBreaker.mk 1 5 1 (some 0) .halfOpen) :=
    Relation.ReflTransGen.tail (Relation.ReflTransGen.single s1) s2
  refine ⟨(circuitBreaker_machine (CircuitBreaker.init 5 60) 0 0).1 rfl,
          (circuitBreaker_machine (CircuitBreaker.init 5 60) 0 0).2.1
            (by norm_num [CircuitBreaker.init]),
          (((circuitBreaker_machine (CircuitBreaker.mk 1 5 1 (some 0) .opened) 3 0).2.2.1
              rfl rfl).1 (by norm_num)),
          ?_, ?_, ?_⟩
  · have h := ((circuitBreaker_machine (CircuitBreaker.mk 1 5 1 (some 0) .opened) 5 0).2.2.1
      rfl rfl).2 (by norm_num)
    exact h
  · exact (circuitBreaker_machine (CircuitBreaker.mk 1 5 1 (some 0) .halfOpen) 5 0).2.2.2.1 rfl
  · exact (circuitBreaker_machine (CircuitBreaker.mk 1 5 1 (some 0) .halfOpen) 6 0).2.2.2.2.2
      1 5 hreach rfl

/-- Claim C4: for a `(operation, identity)` key whose stored window is
`window`, the check rejects — recording no new timestamp — exactly when the
number of previously admitted timestamps within the last `api_rate_limit`
seconds is at least `api_rate_limit`; otherwise it appends the current
timestamp and admits.  (In both cases timestamps that have aged out of the
window are pruned from the stored list.) -/
theorem checkRateLimit_spec (now : ℚ) (apiRateLimit : Nat) (window : List ℚ) :
    checkRateLimit now apiRateLimit window =
      ((decide ((window.filter
          (fun ts => now - ts < (apiRateLimit : ℚ))).length < apiRateLimit)),
       if (window.filter (fun ts => now - ts < (apiRateLimit : ℚ))).length < apiRateLimit
       then window.filter (fun ts => now - ts < (apiRateLimit : ℚ)) ++ [now]
       else window.filter (fun ts => now - ts < (apiRateLimit : ℚ))) := by
  unfold checkRateLimit
  rcases Nat.lt_or_ge
      (window.filter (fun ts => now - ts < (apiRateLimit : ℚ))).length apiRateLimit with h | h
  · rw [if_neg (by omega), if_pos h, decide_eq_true h]
  · rw [if_pos h, if_neg (by omega), decide_eq_false (by omega)]

/-- Unfolding: the retry loop with no attempts left. -/
theorem retryLoop_zero (delay : ℚ) (outcomes : Nat → Except String α) (now : ℚ)
    (k : Nat) (cb : CircuitBreaker) :
    retryLoop delay outcomes now k 0 cb = ⟨.noneReturned, [], 0, cb⟩ := rfl

/-- Unfolding: the retry loop with at least one attempt left. -/
theorem retryLoop_succ (delay : ℚ) (outcomes : Nat → Except String α) (now : ℚ)
    (k m : Nat) (cb : CircuitBreaker) :
    retryLoop delay outcomes now k (m + 1) cb =
      match outcomes k with
      | .ok a => ⟨.value a, [], 1, cb.recordSuccess⟩
      | .error e =>
          if m = 0 then
            ⟨.raised e, [], 1, cb.recordFailure now⟩
          else
            let rest := retryLoop delay outcomes now (k + 1) m (cb.recordFailure now)
            ⟨rest.outcome, delay * 2 ^ k :: rest.sleeps, rest.attemptsMade + 1,
              rest.breaker⟩ := rfl

/-- The retry loop never awaits the wrapped call more often than the attempts
it was given. -/
theorem retryLoop_attempts_le (delay : ℚ) (outcomes : Nat → Except String α) (now : ℚ) :
    ∀ remaining k cb,
      (retryLoop delay outcomes now k remaining cb).attemptsMade ≤ remaining := by
  intro remaining
  induction remaining with
  | zero => intro k cb; rw [retryLoop_zero]
  | succ m ih =>
      intro k cb
      rw [retryLoop_succ]
      cases houtk : outcomes k with
      | ok a => simp
      | error e =>
          by_cases hm : m = 0
          · simp [hm]
          · simp only [if_neg hm]
            exact Nat.succ_le_succ (ih (k + 1) _)

/-- Sleeps performed by the retry loop are always the exponential prefix
`[delay·2^k, delay·2^(k+1), …]`. -/
theorem retryLoop_sleeps_shape (delay : ℚ) (outcomes : Nat → Except String α) (now : ℚ) :
    ∀ remaining k cb, ∃ m, (retryLoop delay outcomes now k remaining cb).sleeps
      = (List.range m).map (fun i => delay * 2 ^ (k + i)) := by
  intro remaining
  induction remaining with
  | zero => intro k cb; exact ⟨0, by rw [retryLoop_zero]; simp⟩
  | succ m ih =>
      intro k cb
      rw [retryLoop_succ]
      cases houtk : outcomes k with
      | ok a => exact ⟨0, by simp⟩
      | error e =>
          by_cases hm : m = 0
          · exact ⟨0, by simp [hm]⟩
          · obtain ⟨mm, hmm⟩ := ih (k + 1) (cb.recordFailure now)
            refine ⟨mm + 1, ?_⟩
            simp only [if_neg hm]
            rw [hmm, List.range_succ_eq_map, List.map_cons, List.map_map]
            congr 1
            refine List.map_congr_left (fun a _ => ?_)
            have hsh : k + 1 + a = k + (a + 1) := by omega
            simp [Function.comp, hsh]

/-- Behaviour of the retry loop when the first success is the attempt with
0-based index `j`. -/
theorem retryLoop_success (delay : ℚ) (outcomes : Nat → Except String α) (now : ℚ)
    (j : Nat) :
    ∀ remaining k cb a, j < remaining →
      (∀ i, i < j → ∃ e, outcomes (k + i) = Except.error e) →
      outcomes (k + j) = Except.ok a →
      (retryLoop delay outcomes now k remaining cb).outcome = .value a ∧
      (retryLoop delay outcomes now k remaining cb).attemptsMade = j + 1 ∧
      (retryLoop delay outcomes now k remaining cb).sleeps
        = (List.range j).map (fun i => delay * 2 ^ (k + i)) := by
  induction j with
  | zero =>
      intro remaining k cb a hlt _ hok
      obtain ⟨m, rfl⟩ : ∃ m, remaining = m + 1 := ⟨remaining - 1, by omega⟩
      rw [Nat.add_zero] at hok
      rw [retryLoop_succ, hok]
      refine ⟨rfl, rfl, by simp⟩
  | succ jj ih =>
      intro remaining k cb a hlt hfail hok
      obtain ⟨m, rfl⟩ : ∃ m, remaining = m + 1 := ⟨remaining - 1, by omega⟩
      obtain ⟨e, he⟩ := hfail 0 (by omega)
      rw [Nat.add_zero] at he
      have hm : m ≠ 0 := by omega
      have ihr := ih m (k + 1) (cb.recordFailure now) a (by omega)
        (fun i hi => by
          obtain ⟨e', he'⟩ := hfail (i + 1) (by omega)
          exact ⟨e', by rw [show k + 1 + i = k + (i + 1) by omega]; exact he'⟩)
        (by rw [show k + 1 + jj = k + (jj + 1) by omega]; exact hok)
      rw [retryLoop_succ, he]
      simp only [if_neg hm]
      refine ⟨ihr.1, by rw [ihr.2.1], ?_⟩
      rw [ihr.2.2, List.range_succ_eq_map, List.map_cons, List.map_map]
      congr 1
      refine List.map_congr_left (fun a _ => ?_)
      have hsh : k + 1 + a = k + (a + 1) := by omega
      simp [Function.comp, hsh]

/-- Behaviour of the retry loop when every available attempt fails: the last
exception is re-raised. -/
theorem retryLoop_allFail (delay : ℚ) (outcomes : Nat → Except String α) (now : ℚ) :
    ∀ remaining k cb, 1 ≤ remaining →
      (∀ i, i < remaining → ∃ e, outcomes (k + i) = Except.error e) →
      ∃ e, outcomes (k + (remaining - 1)) = Except.error e ∧
        (retryLoop delay outcomes now k remaining cb).outcome = .raised e ∧
        (retryLoop delay outcomes now k remaining cb).attemptsMade = remaining := by
  intro remaining
  induction remaining with
  | zero => intro k cb h; omega
  | succ m ih =>
      intro k cb _ hfail
      by_cases hm : m = 0
      · subst hm
        obtain ⟨e, he⟩ := hfail 0 (by omega)
        rw [Nat.add_zero] at he
        refine ⟨e, by simpa using he, ?_, ?_⟩ <;> rw [retryLoop_succ, he] <;> rfl
      · obtain ⟨e0, he0⟩ := hfail 0 (by omega)
        rw [Nat.add_zero] at he0
        obtain ⟨e, he, ho, ha⟩ := ih (k + 1) (cb.recordFailure now) (by omega)
          (fun i hi => by
            obtain ⟨e', he'⟩ := hfail (i + 1) (by omega)
            exact ⟨e', by rw [show k + 1 + i = k + (i + 1) by omega]; exact he'⟩)
        refine ⟨e, ?_, ?_, ?_⟩
        · rw [show k + (m + 1 - 1) = k + 1 + (m - 1) by omega]
          exact he
        · rw [retryLoop_succ, he0]
          simp only [if_neg hm]
          exact ho
        · rw [retryLoop_succ, he0]
          simp only [if_neg hm]
          rw [ha]

/-- Sum of a mapped range as a finite sum. -/
theorem listSum_map_range (f : Nat → ℚ) (n : Nat) :
    ((List.range n).map f).sum = ∑ i in Finset.range n, f i := by
  induction n with
  | zero => simp
  | succ m ih =>
      rw [List.range_succ, List.map_append, List.sum_append, Finset.sum_range_succ, ih]
      simp

/-- Claim C3: with an admitting (CLOSED) breaker, `_execute_with_retry` makes
at most `retry_attempts` tries of the wrapped call; the sleeps form the
exponential sequence whose entry with 0-based index `i` — the delay before
the attempt with 0-based index `i + 1` — is `retry_delay · 2^i`; a call whose
first success is the attempt with 0-based index `j` (1-based number `k = j+1`)
made `j + 1` tries preceded by total sleep
`Σ_{i=0}^{k-2} retry_delay · 2^i`; and when every attempt fails the last
exception is re-raised. -/
theorem executeWithRetry_spec (retryAttempts : Nat) (delay : ℚ) (cb : CircuitBreaker)
    (now : ℚ) (outcomes : Nat → Except String α) (hclosed : cb.state = .closed) :
    (executeWithRetry retryAttempts delay cb now outcomes).attemptsMade ≤ retryAttempts ∧
    ((executeWithRetry retryAttempts delay cb now outcomes).sleeps
      = (List.range
          (executeWithRetry retryAttempts delay cb now outcomes).sleeps.length).map
          (fun i => delay * 2 ^ i)) ∧
    (∀ j a, j < retryAttempts →
      (∀ i, i < j → ∃ e, outcomes i = Except.error e) →
      outcomes j = Except.ok a →
      (executeWithRetry retryAttempts delay cb now outcomes).outcome = .value a ∧
      (executeWithRetry retryAttempts delay cb now outcomes).attemptsMade = j + 1 ∧
      (executeWithRetry retryAttempts delay cb now outcomes).sleeps.sum
        = ∑ i in Finset.range ((j + 1) - 1), delay * 2 ^ i) ∧
    (1 ≤ retryAttempts →
      (∀ i, i < retryAttempts → ∃ e, outcomes i = Except.error e) →
      ∃ e, outcomes (retryAttempts - 1) = Except.error e ∧
        (executeWithRetry retryAttempts delay cb now outcomes).outcome = .raised e) := by
  have hgate : executeWithRetry retryAttempts delay cb now outcomes
      = retryLoop delay outcomes now 0 retryAttempts cb := by
    simp [executeWithRetry, CircuitBreaker.canExecute, hclosed]
  refine ⟨?_, ?_, ?_, ?_⟩
  · rw [hgate]
    exact retryLoop_attempts_le delay outcomes now retryAttempts 0 cb
  · rw [hgate]
    obtain ⟨m, hm⟩ := retryLoop_sleeps_shape delay outcomes now retryAttempts 0 cb
    rw [hm]
    simp
  · intro j a hj hfail hok
    have h := retryLoop_success delay outcomes now j retryAttempts 0 cb a hj
      (fun i hi => by simpa using hfail i hi) (by simpa using hok)
    rw [hgate]
    refine ⟨h.1, h.2.1, ?_⟩
    rw [h.2.2, show (j + 1) - 1 = j by omega]
    rw [listSum_map_range]
    simp
  · intro hn hfail
    obtain ⟨e, he, ho, _⟩ := retryLoop_allFail delay outcomes now retryAttempts 0 cb hn
      (fun i hi => by simpa using hfail i hi)
    rw [hgate]
    exact ⟨e, by simpa using he, ho⟩

/-- Witness for `executeWithRetry_spec`: three attempts with delay 1 against a
call that fails twice then returns 7 — three tries, total sleep
`1·2^0 + 1·2^1 = 3`; and against a call that always fails — the last
exception ("x") is re-raised. -/
theorem executeWithRetry_spec_witness :
    (executeWithRetry 3 1 (CircuitBreaker.init 5 60) 0
        (fun i => if i < 2 then Except.error "boom" else Except.ok (7 : Nat))).outcome
      = .value 7 ∧
    (executeWithRetry 3 1 (CircuitBreaker.init 5 60) 0
        (fun i => if i < 2 then Except.error "boom" else Except.ok (7 : Nat))).attemptsMade
      = 3 ∧
    (executeWithRetry 3 1 (CircuitBreaker.init 5 60) 0
        (fun i => if i < 2 then Except.error "boom" else Except.ok (7 : Nat))).sleeps.sum
      = 3 ∧
    (executeWithRetry 3 1 (CircuitBreaker.init 5 60) 0
        (fun _ => (Except.error "x" : Except String Nat))).outcome = .raised "x" := by
  have h := (executeWithRetry_spec 3 1 (CircuitBreaker.init 5 60) 0
      (fun i => if i < 2 then Except.error "boom" else Except.ok (7 : Nat)) rfl).2.2.1
      2 7 (by omega) (fun i hi => ⟨"boom", by simp [hi]⟩) (by norm_num)
  refine ⟨h.1, h.2.1, ?_, ?_⟩
  · rw [h.2.2]
    norm_num [Finset.sum_range_succ]
  · obtain ⟨e, he, ho⟩ := (executeWithRetry_spec 3 1 (CircuitBreaker.init 5 60) 0
        (fun _ => (Except.error "x" : Except String Nat)) rfl).2.2.2
        (by omega) (fun i _ => ⟨"x", rfl⟩)
    have : e = "x" := by
      have := he
      simp only [Except.error.injEq] at this
      exact this.symm
    rw [this] at ho
    exact ho

/-- Claim C9: in every state of the workflow table, `get_workflow_stats`
returns a record whose `total_workflows` equals the sum of the five per-status
counts, because the five workflow statuses are exhaustive and mutually
exclusive. -/
theorem workflowStats_total_eq_sum (ws : List Workflow) :
    (getWorkflowStats ws).totalWorkflows
      = (getWorkflowStats ws).pendingWorkflows
        + (getWorkflowStats ws).runningWorkflows
        + (getWorkflowStats ws).completedWorkflows
        + (getWorkflowStats ws).failedWorkflows
        + (getWorkflowStats ws).cancelledWorkflows := by
  induction ws with
  | nil => rfl
  | cons w rest ih =>
      simp only [getWorkflowStats, List.length_cons, List.filter_cons] at ih ⊢
      cases hst : w.status <;> simp [hst] <;> omega

/-- Claim C6 counterexample: `content_creation` does not get a fixed
multi-task chain of its own — it falls into the generic branch producing the
single `execute_workflow` task. -/
theorem contentCreation_yields_generic_task :
    (createWorkflowTasks "content_creation" [("topic", "x")] .normal).map
        (fun t => t.taskType) = ["execute_workflow"] := by
  rfl

/-- Claim C6 (amended): the template table as implemented — `site_recreation`
yields its four tasks in order and `business_analysis` its three; every other
workflow type, including `content_creation`, `research_processing` and
`automation`, yields the single `execute_workflow` task carrying the
workflow payload. -/
theorem createWorkflowTasks_table (payload : List (String × String))
    (priority : TaskPriority) :
    createWorkflowTasks "site_recreation" payload priority =
      [ ⟨"analyze_site", [("url", lookupPayload payload "url")], priority⟩,
        ⟨"design_interface", [("requirements", lookupPayload payload "requirements")],
          priority⟩,
        ⟨"generate_code", [("design", some "from_previous_task")], priority⟩,
        ⟨"test_quality", [("code", some "from_previous_task")], priority⟩ ] ∧
    createWorkflowTasks "business_analysis" payload priority =
      [ ⟨"analyze_portfolio", [("businesses", lookupPayload payload "businesses")],
          priority⟩,
        ⟨"financial_analysis", [("data", some "from_previous_task")], priority⟩,
        ⟨"generate_report", [("analysis", some "from_previous_task")], priority⟩ ] ∧
    (∀ t, t ≠ "site_recreation" → t ≠ "business_analysis" →
      createWorkflowTasks t payload priority
        = [⟨"execute_workflow", payload.map (fun e => (e.1, some e.2)), priority⟩]) := by
  refine ⟨by simp [createWorkflowTasks], by simp [createWorkflowTasks], ?_⟩
  intro t h1 h2
  simp [createWorkflowTasks, h1, h2]

/-- Witness for `createWorkflowTasks_table`: the generic branch at
`content_creation`. -/
theorem createWorkflowTasks_table_witness :
    createWorkflowTasks "content_creation" [("topic", "x")] .normal
      = [⟨"execute_workflow", [("topic", some "x")], .normal⟩] :=
  (createWorkflowTasks_table [("topic", "x")] .normal).2.2 "content_creation"
    (by decide) (by decide)

/-- Claim C8 fails on the code: cancelling the running workflow at time 10
makes `cancel_workflow` stamp `completed_at = 10` and put the workflow in the
terminal CANCELLED state, yet the cancelled execution task's
`except asyncio.CancelledError` handler then runs (here at time 11) and
re-assigns `completed_at = 11` — a second assignment that mutates a workflow
already in a terminal state. -/
theorem cancelInFlight_completedAt_twice :
    (cancelWorkflow 10 engineEx "w1").1 = true ∧
    (cancelWorkflow 10 engineEx "w1").2.1.workflows
      = [("w1", { wfRunningEx with status := WorkflowStatus.cancelled,
                                   completedAt := some 10 })] ∧
    ({ wfRunningEx with status := WorkflowStatus.cancelled,
                        completedAt := some 10 } : Workflow).status
      = WorkflowStatus.cancelled ∧
    (cancelledHandler 11 { wfRunningEx with status := WorkflowStatus.cancelled,
                                            completedAt := some 10 }).completedAt
      = some 11 ∧
    cancelledHandler 11 { wfRunningEx with status := WorkflowStatus.cancelled,
                                           completedAt := some 10 }
      ≠ { wfRunningEx with status := WorkflowStatus.cancelled,
                           completedAt := some 10 } := by
  refine ⟨?_, ?_, rfl, rfl, ?_⟩
  · rfl
  · rfl
  · intro h
    have h10 : (some (11 : ℚ)) = some 10 := congrArg Workflow.completedAt h
    have : (11 : ℚ) = 10 := Option.some.inj h10
    norm_num at this

/-- Claim C7: `cancel_workflow` on a known workflow.  A workflow already in
COMPLETED/FAILED/CANCELLED yields false with the state (and effects)
untouched; a non-terminal workflow whose execution task is in flight has that
engine-internal task cancelled, a queue cancel issued for every id currently
in `workflow.tasks`, its status set to CANCELLED with `completed_at` stamped,
and true returned. -/
theorem cancelWorkflow_spec (now : ℚ) (st : EngineState) (wid : String) (wf : Workflow)
    (hfind : st.workflows.find? (fun e => e.1 = wid) = some (wid, wf)) :
    ((wf.status = .completed ∨ wf.status = .failed ∨ wf.status = .cancelled) →
      cancelWorkflow now st wid = (false, st, ⟨false, []⟩)) ∧
    (¬(wf.status = .completed ∨ wf.status = .failed ∨ wf.status = .cancelled) →
      st.runningWorkflows.contains wid = true →
      cancelWorkflow now st wid =
        (true,
         { st with
             workflows := st.workflows.map (fun e =>
               if e.1 = wid then
                 (wid, { wf with status := WorkflowStatus.cancelled,
                                 completedAt := some now })
               else e),
             queue := wf.tasks.foldl (fun q id => (q.cancelTask id).2) st.queue },
         ⟨true, wf.tasks⟩)) := by
  constructor
  · intro hterm
    unfold cancelWorkflow
    rw [hfind]
    simp [hterm]
  · intro hterm hrun
    have hmem : wid ∈ st.runningWorkflows := by simpa using hrun
    unfold cancelWorkflow
    rw [hfind]
    simp [hterm, hmem]

/-- Witness for `cancelWorkflow_spec`: the completed workflow refuses
cancellation; the running one is cancelled with its single task cascaded. -/
theorem cancelWorkflow_spec_witness :
    cancelWorkflow 10 engineDoneEx "w1" = (false, engineDoneEx, ⟨false, []⟩) ∧
    (cancelWorkflow 10 engineEx "w1").1 = true ∧
    (cancelWorkflow 10 engineEx "w1").2.2 = ⟨true, [0]⟩ := by
  have h1 := (cancelWorkflow_spec 10 engineDoneEx "w1" wfDoneEx rfl).1
    (Or.inl rfl)
  have h2 := (cancelWorkflow_spec 10 engineEx "w1" wfRunningEx rfl).2
    (by simp [wfRunningEx, Workflow.make]) rfl
  exact ⟨h1, by rw [h2], by rw [h2]; rfl⟩

/-- Claim C5 counterexample: with two selected agents, the task with enqueue
index 1 is recorded as assigned to `assigned_agents[0] = "A1"`, not to
`assigned_agents[1 mod 2] = "A2"` as round-robin assignment would demand. -/
theorem assign_not_roundRobin :
    (executeAgentTasksEnqueue wfTwoAgentsEx TaskQueue.empty).1.tasks = [0, 1, 2] ∧
    (((executeAgentTasksEnqueue wfTwoAgentsEx TaskQueue.empty).2.getTaskStatus 1).map
        (fun r => r.assignedAgent)) = some (some "A1") ∧
    ["A1", "A2"].get? (1 % 2) = some "A2" ∧
    ("A1" : String) ≠ "A2" := by
  refine ⟨rfl, rfl, rfl, by decide⟩

/-- Evaluation of one `enqueueStep` under a non-empty agent list: the task is
enqueued under the next counter id and immediately assigned (PENDING →
ASSIGNED) to the first agent. -/
theorem enqueueStep_eval (wf : Workflow) (q : TaskQueue) (t : TaskSpec)
    (a : String) (rest : List String)
    (hq : ∀ e ∈ q.tasks, e.1 < q.nextId)
    (ha : wf.assignedAgents = a :: rest) :
    enqueueStep (wf, q) t
      = ({ wf with tasks := wf.tasks ++ [q.nextId] },
         { tasks := q.tasks ++ [(q.nextId, ⟨t, TaskStatus.assigned, some a, none⟩)],
           nextId := q.nextId + 1 }) := by
  have hfind0 : q.tasks.find? (fun e => e.1 = q.nextId) = none := by
    rw [List.find?_eq_none]
    intro e he
    have := hq e he
    simp only [decide_eq_true_eq]
    omega
  unfold enqueueStep TaskQueue.enqueueTask
  dsimp only
  rw [ha]
  dsimp only
  unfold TaskQueue.assignAgent
  rw [List.find?_append, hfind0, Option.none_or,
      List.find?_cons_of_pos _ (by simp)]
  dsimp only
  rw [if_pos rfl]
  refine Prod.ext rfl ?_
  dsimp only
  congr 1
  rw [List.map_append]
  congr 1
  · conv_rhs => rw [← List.map_id q.tasks]
    refine List.map_congr_left (fun e he => ?_)
    have := hq e he
    rw [if_neg (by omega)]
    rfl
  · simp

/-- Master invariant of the enqueue-and-assign loop: with a non-empty agent
list the fold enqueues its tasks under consecutive counter ids, appends those
ids to `workflow.tasks`, leaves older queue entries untouched, and records
every new task as ASSIGNED to the first agent of `assigned_agents`. -/
theorem enqueueFold_assigns (a : String) (rest : List String) :
    ∀ (specs : List TaskSpec) (wf : Workflow) (q : TaskQueue),
      (∀ e ∈ q.tasks, e.1 < q.nextId) →
      wf.assignedAgents = a :: rest →
      (specs.foldl enqueueStep (wf, q)).1.assignedAgents = a :: rest ∧
      (∀ e ∈ (specs.foldl enqueueStep (wf, q)).2.tasks,
        e.1 < (specs.foldl enqueueStep (wf, q)).2.nextId) ∧
      (specs.foldl enqueueStep (wf, q)).2.nextId = q.nextId + specs.length ∧
      (specs.foldl enqueueStep (wf, q)).1.tasks
        = wf.tasks ++ (List.range specs.length).map (fun i => q.nextId + i) ∧
      (∀ id, id < q.nextId →
        (specs.foldl enqueueStep (wf, q)).2.getTaskStatus id = q.getTaskStatus id) ∧
      (∀ i, i < specs.length →
        (((specs.foldl enqueueStep (wf, q)).2.getTaskStatus (q.nextId + i)).map
            (fun r => r.assignedAgent)) = some (some a)) := by
  intro specs
  induction specs with
  | nil =>
      intro wf q hq ha
      exact ⟨ha, hq, by simp, by simp, fun id _ => rfl,
             fun i hi => absurd hi (by simp)⟩
  | cons t ts ih =>
      intro wf q hq ha
      have hstep := enqueueStep_eval wf q t a rest hq ha
      have hq' : ∀ e ∈ (q.tasks ++ [(q.nextId, (⟨t, TaskStatus.assigned, some a, none⟩ : TaskRec))]),
          e.1 < q.nextId + 1 := by
        intro e he
        rcases List.mem_append.1 he with h | h
        · have := hq e h
          omega
        · rw [List.mem_singleton] at h
          subst h
          simp
      have ihr := ih { wf with tasks := wf.tasks ++ [q.nextId] }
        { tasks := q.tasks ++ [(q.nextId, ⟨t, TaskStatus.assigned, some a, none⟩)],
          nextId := q.nextId + 1 } hq' ha
      obtain ⟨ih1, ih2, ih3, ih4, ih5, ih6⟩ := ihr
      have hnx : (TaskQueue.mk
          (q.tasks ++ [(q.nextId, ⟨t, TaskStatus.assigned, some a, none⟩)])
          (q.nextId + 1)).nextId = q.nextId + 1 := rfl
      rw [hnx] at ih3 ih4 ih5 ih6
      have hpres : ∀ id, id < q.nextId →
          TaskQueue.getTaskStatus
            { tasks := q.tasks ++ [(q.nextId, ⟨t, TaskStatus.assigned, some a, none⟩)],
              nextId := q.nextId + 1 } id = q.getTaskStatus id := by
        intro id hid
        unfold TaskQueue.getTaskStatus
        rw [List.find?_append, List.find?_cons_of_neg _ (by simp; omega)]
        simp
      have hnew : TaskQueue.getTaskStatus
          { tasks := q.tasks ++ [(q.nextId, ⟨t, TaskStatus.assigned, some a, none⟩)],
            nextId := q.nextId + 1 } q.nextId
          = some ⟨t, TaskStatus.assigned, some a, none⟩ := by
        unfold TaskQueue.getTaskStatus
        rw [List.find?_append]
        have hfind0 : q.tasks.find? (fun e => e.1 = q.nextId) = none := by
          rw [List.find?_eq_none]
          intro e he
          have := hq e he
          simp only [decide_eq_true_eq]
          omega
        rw [hfind0, Option.none_or, List.find?_cons_of_pos _ (by simp)]
        rfl
      rw [List.foldl_cons, hstep]
      refine ⟨ih1, ih2, ?_, ?_, ?_, ?_⟩
      · rw [ih3]
        simp only [List.length_cons]
        omega
      · rw [ih4]
        dsimp only
        rw [List.append_assoc]
        congr 1
        simp only [List.length_cons]
        rw [List.range_succ_eq_map, List.map_cons, List.map_map, List.singleton_append]
        congr 1
        refine List.map_congr_left (fun i _ => ?_)
        have hsh : q.nextId + 1 + i = q.nextId + (i + 1) := by omega
        simp [Function.comp, hsh]
      · intro id hid
        rw [ih5 id (by omega)]
        exact hpres id hid
      · intro i hi
        cases i with
        | zero =>
            simp only [Nat.add_zero]
            rw [ih5 q.nextId (by omega), hnew]
            rfl
        | succ i' =>
            rw [show q.nextId + (i' + 1) = q.nextId + 1 + i' by omega]
            refine ih6 i' ?_
            simp only [List.length_cons] at hi
            omega

/-- Claim C5 (amended): during TASK_EXECUTION with a non-empty
`assigned_agents` list, the engine enqueues the template tasks under
consecutive ids appended to `workflow.tasks` and assigns every one of them to
`assigned_agents[0]`; the source comment says "Simple round-robin" but the
index never advances, so the claimed `assigned_agents[i mod n]` law holds
only when a single agent was selected. -/
theorem executeAgentTasks_assigns_first_agent (wf : Workflow) (q : TaskQueue)
    (a : String) (rest : List String)
    (hq : ∀ e ∈ q.tasks, e.1 < q.nextId)
    (ha : wf.assignedAgents = a :: rest) :
    (executeAgentTasksEnqueue wf q).1.tasks
      = wf.tasks ++ (List.range
          (createWorkflowTasks wf.workflowType wf.payload wf.priority).length).map
          (fun i => q.nextId + i) ∧
    (∀ i, i < (createWorkflowTasks wf.workflowType wf.payload wf.priority).length →
      (((executeAgentTasksEnqueue wf q).2.getTaskStatus (q.nextId + i)).map
          (fun r => r.assignedAgent)) = some (some a)) := by
  have h := enqueueFold_assigns a rest
    (createWorkflowTasks wf.workflowType wf.payload wf.priority) wf q hq ha
  exact ⟨h.2.2.2.1, h.2.2.2.2.2⟩

/-- Witness for `executeAgentTasks_assigns_first_agent`: in the two-agent
`business_analysis` scenario, the three tasks get ids 0,1,2 and the last one
is assigned to "A1". -/
theorem executeAgentTasks_assigns_first_agent_witness :
    (executeAgentTasksEnqueue wfTwoAgentsEx TaskQueue.empty).1.tasks
      = wfTwoAgentsEx.tasks ++ (List.range
          (createWorkflowTasks wfTwoAgentsEx.workflowType wfTwoAgentsEx.payload
            wfTwoAgentsEx.priority).length).map (fun i => TaskQueue.empty.nextId + i) ∧
    (((executeAgentTasksEnqueue wfTwoAgentsEx TaskQueue.empty).2.getTaskStatus
        (TaskQueue.empty.nextId + 2)).map (fun r => r.assignedAgent))
      = some (some "A1") := by
  have h := executeAgentTasks_assigns_first_agent wfTwoAgentsEx TaskQueue.empty
    "A1" ["A2"] (fun e he => absurd he (List.not_mem_nil e)) rfl
  exact ⟨h.1, h.2 2 (by decide)⟩

/-- One enqueue-and-assign step never touches `workflow.results` or
`workflow.status`. -/
theorem enqueueStep_preserves (acc : Workflow × TaskQueue) (t : TaskSpec) :
    (enqueueStep acc t).1.results = acc.1.results ∧
    (enqueueStep acc t).1.status = acc.1.status := by
  unfold enqueueStep
  cases hwa : acc.1.assignedAgents <;> simp [hwa]

/-- The whole enqueue-and-assign fold never touches `workflow.results` or
`workflow.status`. -/
theorem enqueueFold_preserves :
    ∀ (specs : List TaskSpec) (acc : Workflow × TaskQueue),
      (specs.foldl enqueueStep acc).1.results = acc.1.results ∧
      (specs.foldl enqueueStep acc).1.status = acc.1.status := by
  intro specs
  induction specs with
  | nil => intro acc; exact ⟨rfl, rfl⟩
  | cons t ts ih =>
      intro acc
      rw [List.foldl_cons]
      refine ⟨?_, ?_⟩
      · rw [(ih (enqueueStep acc t)).1, (enqueueStep_preserves acc t).1]
      · rw [(ih (enqueueStep acc t)).2, (enqueueStep_preserves acc t).2]

/-- When the monitor loop exits, `workflow.tasks` has been drained to `[]`
and `workflow.results` is untouched. -/
theorem monitorLoop_drains (q : TaskQueue) :
    ∀ fuel wf wf', monitorLoop q fuel wf = some wf' →
      wf'.tasks = [] ∧ wf'.results = wf.results := by
  intro fuel
  induction fuel with
  | zero => intro wf wf' h; simp [monitorLoop] at h
  | succ n ih =>
      intro wf wf' h
      unfold monitorLoop at h
      by_cases h1 : wf.tasks.isEmpty
      · rw [if_pos h1] at h
        cases h
        exact ⟨List.isEmpty_iff.1 h1, rfl⟩
      · rw [if_neg h1] at h
        by_cases h2 : (monitorPass q wf).tasks.isEmpty
        · rw [if_pos h2] at h
          cases h
          exact ⟨List.isEmpty_iff.1 h2, rfl⟩
        · rw [if_neg h2] at h
          obtain ⟨ha, hb⟩ := ih (monitorPass q wf) wf' h
          exact ⟨ha, hb⟩

/-- RESULT_PROCESSING over an already-drained `workflow.tasks` copies
nothing. -/
theorem processResults_empty (q : TaskQueue) (wf : Workflow) (h : wf.tasks = []) :
    (processResults q wf).results = wf.results := by
  unfold processResults
  simp [h]

/-- Claim C1 fails on the code: on the agent route,
`_monitor_task_execution` removes every finished task id from
`workflow.tasks` before `_process_results` runs, so the RESULT_PROCESSING
phase copies nothing — whatever the tasks' final statuses and results,
`workflow.results` ends exactly as it started (empty for a fresh workflow)
even though the workflow completes. -/
theorem agentRoute_collects_no_results (now : ℚ) (fuel : Nat)
    (agentWork : TaskQueue → TaskQueue) (wf : Workflow) (q : TaskQueue)
    (wf' : Workflow) (q' : TaskQueue)
    (h : runAgentRoute now fuel agentWork wf q = some (wf', q')) :
    wf'.results = wf.results ∧ wf'.status = WorkflowStatus.completed := by
  unfold runAgentRoute at h
  dsimp only at h
  split at h
  · cases h
  · rename_i wf2 hm
    obtain ⟨hd, hr⟩ := monitorLoop_drains _ fuel _ wf2 hm
    have hrun : wf' = completeWorkflow now (processResults
        (agentWork (executeAgentTasksEnqueue
          { wf with currentPhase := WorkflowPhase.taskExecution } q).2) wf2) := by
      have := congrArg (fun p => p.map Prod.fst) h
      simpa using this.symm
    subst hrun
    constructor
    · show (processResults _ wf2).results = wf.results
      rw [processResults_empty _ wf2 hd, hr]
      exact (enqueueFold_preserves _ _).1
    · rfl

/-- Witness for `agentRoute_collects_no_results`, which is also the S1
failing run: the `business_analysis` workflow's three tasks (ids 0, 1, 2) all
reach COMPLETED with results, the workflow terminates COMPLETED — and
`workflow.results` is empty instead of holding three task-id keys. -/
theorem agentRoute_collects_no_results_witness :
    (runAgentRoute 20 3 agentWorkEx wfS1Ex TaskQueue.empty).map
        (fun wq => wq.1.results) = some [] ∧
    (runAgentRoute 20 3 agentWorkEx wfS1Ex TaskQueue.empty).map
        (fun wq => wq.1.status) = some WorkflowStatus.completed ∧
    (runAgentRoute 20 3 agentWorkEx wfS1Ex TaskQueue.empty).map
        (fun wq => ((wq.2.getTaskStatus 0).map (fun r => (r.status, r.result)),
                    (wq.2.getTaskStatus 1).map (fun r => (r.status, r.result)),
                    (wq.2.getTaskStatus 2).map (fun r => (r.status, r.result))))
      = some (some (TaskStatus.completed, some "r0"),
              some (TaskStatus.completed, some "r1"),
              some (TaskStatus.completed, some "r2")) := by
  have hrun : ∃ p, runAgentRoute 20 3 agentWorkEx wfS1Ex TaskQueue.empty = some p :=
    ⟨_, rfl⟩
  obtain ⟨p, hp⟩ := hrun
  have h := agentRoute_collects_no_results 20 3 agentWorkEx wfS1Ex TaskQueue.empty
    p.1 p.2 (by rw [hp])
  refine ⟨?_, ?_, ?_⟩
  · rw [hp]
    simp only [Option.map_some']
    rw [h.1]
    rfl
  · rw [hp]
    simp only [Option.map_some']
    rw [h.2]
  · rfl

/-- A list of only whitespace splits into no words. -/
theorem pySplitAux_all_space (l : List Char) (h : ∀ c ∈ l, pyIsSpace c = true) :
    pySplitAux l [] = [] := by
  induction l with
  | nil => rfl
  | cons c cs ih =>
      unfold pySplitAux
      rw [if_pos (h c (by simp))]
      rw [if_pos (by simp)]
      exact ih (fun d hd => h d (by simp [hd]))

/-- A list containing a non-whitespace character (or a pending fragment)
splits into at least one word. -/
theorem pySplitAux_ne_nil (l : List Char) :
    ∀ acc : List Char, ((∃ c ∈ l, pyIsSpace c = false) ∨ acc ≠ []) →
      pySplitAux l acc ≠ [] := by
  induction l with
  | nil =>
      intro acc h
      unfold pySplitAux
      rcases h with ⟨c, hc, _⟩ | hne
      · exact absurd hc (List.not_mem_nil c)
      · rw [if_neg (by simpa using hne)]
        simp
  | cons c cs ih =>
      intro acc h
      unfold pySplitAux
      by_cases hsp : pyIsSpace c = true
      · rw [if_pos hsp]
        by_cases hacc : acc.isEmpty
        · rw [if_pos hacc]
          apply ih []
          left
          rcases h with ⟨d, hd, hdf⟩ | hne
          · rcases List.mem_cons.1 hd with rfl | hdcs
            · rw [hsp] at hdf; cases hdf
            · exact ⟨d, hdcs, hdf⟩
          · exact absurd (List.isEmpty_iff.1 hacc) hne
        · rw [if_neg hacc]
          simp
      · rw [if_neg hsp]
        apply ih (c :: acc)
        right
        simp

/-- Every character of every split word comes from the input (or the pending
fragment) and is non-whitespace; stated through an arbitrary predicate. -/
theorem pySplitAux_chars (P : Char → Prop) (l : List Char) :
    ∀ acc : List Char, (∀ c ∈ acc, P c) →
      (∀ c ∈ l, pyIsSpace c = false → P c) →
      ∀ w ∈ pySplitAux l acc, ∀ c ∈ w, P c := by
  induction l with
  | nil =>
      intro acc hacc _ w hw c hc
      unfold pySplitAux at hw
      by_cases he : acc.isEmpty
      · rw [if_pos he] at hw
        exact absurd hw (List.not_mem_nil w)
      · rw [if_neg he] at hw
        rw [List.mem_singleton] at hw
        subst hw
        exact hacc c (by simpa using hc)
  | cons d ds ih =>
      intro acc hacc hl w hw c hc
      unfold pySplitAux at hw
      by_cases hsp : pyIsSpace d = true
      · rw [if_pos hsp] at hw
        by_cases he : acc.isEmpty
        · rw [if_pos he] at hw
          exact ih [] (by simp) (fun e hel hef => hl e (by simp [hel]) hef) w hw c hc
        · rw [if_neg he] at hw
          rcases List.mem_cons.1 hw with rfl | hw'
          · exact hacc c (by simpa using hc)
          · exact ih [] (by simp) (fun e hel hef => hl e (by simp [hel]) hef) w hw' c hc
      · rw [if_neg hsp] at hw
        refine ih (d :: acc) ?_ (fun e hel hef => hl e (by simp [hel]) hef) w hw c hc
        intro e he
        rcases List.mem_cons.1 he with rfl | he'
        · exact hl e (by simp) (by simpa using hsp)
        · exact hacc e he'

/-- After separator replacement no character is '_' or '-'. -/
theorem replaceSeps_no_sep (s : List Char) :
    ∀ c ∈ replaceSeps s, c ≠ '_' ∧ c ≠ '-' := by
  intro c hc
  unfold replaceSeps at hc
  obtain ⟨d, _, hdc⟩ := List.mem_map.1 hc
  by_cases hd : (d == '_' || d == '-') = true
  · rw [if_pos hd] at hdc
    subst hdc
    exact ⟨by decide, by decide⟩
  · rw [if_neg hd] at hdc
    subst hdc
    simpa using hd

/-- ASCII lowercasing never produces a separator character. -/
theorem pyToLower_no_sep (c : Char) (h1 : c ≠ '_') (h2 : c ≠ '-') :
    pyToLower c ≠ '_' ∧ pyToLower c ≠ '-' := by
  unfold pyToLower
  cases hf : caseTable.find? (fun p => p.1 == c) with
  | none => exact ⟨h1, h2⟩
  | some p =>
      have hp : p ∈ caseTable := List.mem_of_find?_eq_some hf
      have htab : ∀ r ∈ caseTable, r.2 ≠ '_' ∧ r.2 ≠ '-' := by decide
      simpa using htab p hp

/-- ASCII uppercasing never produces a separator character. -/
theorem pyToUpper_no_sep (c : Char) (h1 : c ≠ '_') (h2 : c ≠ '-') :
    pyToUpper c ≠ '_' ∧ pyToUpper c ≠ '-' := by
  unfold pyToUpper
  cases hf : caseTable.find? (fun p => p.2 == c) with
  | none => exact ⟨h1, h2⟩
  | some p =>
      have hp : p ∈ caseTable := List.mem_of_find?_eq_some hf
      have htab : ∀ r ∈ caseTable, r.1 ≠ '_' ∧ r.1 ≠ '-' := by decide
      simpa using htab p hp

/-- Claim C10: `safe_camel_case` returns its input unchanged when the input
is empty or consists only of separator ('_', '-') and whitespace characters
(such an output may still contain separators); when the input has at least
one word — a character that is neither separator nor whitespace — the output
is the first word lowercased followed by each subsequent word capitalized,
and it contains no '_' or '-'. -/
theorem safe_camel_case_spec (s : List Char) :
    ((∀ c ∈ s, c = '_' ∨ c = '-' ∨ pyIsSpace c = true) → safe_camel_case s = s) ∧
    ((∃ c ∈ s, ¬(c = '_' ∨ c = '-' ∨ pyIsSpace c = true)) →
      (∃ w ws, pySplit (replaceSeps s) = w :: ws ∧
        safe_camel_case s = pyLowerWord w ++ (ws.map pyCapitalizeWord).flatten) ∧
      '_' ∉ safe_camel_case s ∧ '-' ∉ safe_camel_case s) := by
  constructor
  · intro h
    unfold safe_camel_case
    by_cases hs : s.isEmpty
    · rw [if_pos hs]
    · rw [if_neg hs]
      have hall : ∀ c ∈ replaceSeps s, pyIsSpace c = true := by
        intro c hc
        obtain ⟨d, hd, hdc⟩ := List.mem_map.1 hc
        rcases h d hd with h' | h' | h'
        · subst h'; rw [if_pos (by decide)] at hdc; subst hdc; decide
        · subst h'; rw [if_pos (by decide)] at hdc; subst hdc; decide
        · by_cases hsep : (d == '_' || d == '-') = true
          · rw [if_pos hsep] at hdc; subst hdc; decide
          · rw [if_neg hsep] at hdc; subst hdc; exact h'
      rw [show pySplit (replaceSeps s) = [] from pySplitAux_all_space _ hall]
  · intro h
    obtain ⟨c0, hc0, hprop⟩ := h
    have h1 : c0 ≠ '_' := fun he => hprop (Or.inl he)
    have h2 : c0 ≠ '-' := fun he => hprop (Or.inr (Or.inl he))
    have h3 : pyIsSpace c0 = false := by
      cases hb : pyIsSpace c0
      · rfl
      · exact absurd (Or.inr (Or.inr hb)) hprop
    have hc0r : c0 ∈ replaceSeps s := by
      unfold replaceSeps
      refine List.mem_map.2 ⟨c0, hc0, ?_⟩
      rw [if_neg]
      simp [h1, h2]
    have hne : pySplit (replaceSeps s) ≠ [] :=
      pySplitAux_ne_nil _ [] (Or.inl ⟨c0, hc0r, h3⟩)
    have hsne : s.isEmpty = false := by
      cases s
      · exact absurd hc0 (List.not_mem_nil c0)
      · rfl
    cases hw : pySplit (replaceSeps s) with
    | nil => exact absurd hw hne
    | cons w ws =>
        have heq : safe_camel_case s
            = pyLowerWord w ++ (ws.map pyCapitalizeWord).flatten := by
          unfold safe_camel_case
          rw [if_neg (by simp [hsne]), hw]
        have hwordchars : ∀ v ∈ pySplit (replaceSeps s), ∀ c ∈ v,
            c ≠ '_' ∧ c ≠ '-' := by
          refine pySplitAux_chars _ _ [] (by simp) ?_
          intro c hc _
          exact replaceSeps_no_sep s c hc
        have houtput : ∀ c ∈ safe_camel_case s, c ≠ '_' ∧ c ≠ '-' := by
          rw [heq]
          intro c hc
          rcases List.mem_append.1 hc with hcl | hcr
          · obtain ⟨d, hd, hdc⟩ := List.mem_map.1 hcl
            have hdP := hwordchars w (by rw [hw]; simp) d hd
            subst hdc
            exact pyToLower_no_sep d hdP.1 hdP.2
          · obtain ⟨v', hv', hcv'⟩ := List.mem_flatten.1 hcr
            obtain ⟨v, hv, rfl⟩ := List.mem_map.1 hv'
            have hvP := hwordchars v (by rw [hw]; simp [hv])
            cases v with
            | nil => simp [pyCapitalizeWord] at hcv'
            | cons d ds =>
                unfold pyCapitalizeWord at hcv'
                rcases List.mem_cons.1 hcv' with rfl | hcv''
                · exact pyToUpper_no_sep d (hvP d (by simp)).1 (hvP d (by simp)).2
                · obtain ⟨e, he, rfl⟩ := List.mem_map.1 hcv''
                  exact pyToLower_no_sep e (hvP e (by simp [he])).1
                    (hvP e (by simp [he])).2
        exact ⟨⟨w, ws, rfl, heq⟩, fun hmem => (houtput _ hmem).1 rfl,
               fun hmem => (houtput _ hmem).2 rfl⟩

/-- Witness for `safe_camel_case_spec`: a separator-only input comes back
unchanged, and "user_management" camel-cases with no '_' left, to
"userManagement" (the docstring's own example). -/
theorem safe_camel_case_spec_witness :
    safe_camel_case ('_' :: '-' :: ' ' :: []) = ('_' :: '-' :: ' ' :: []) ∧
    '_' ∉ safe_camel_case ("user_management".toList) ∧
    safe_camel_case ("user_management".toList) = "userManagement".toList := by
  refine ⟨(safe_camel_case_spec _).1 (by decide), ?_, ?_⟩
  · exact (((safe_camel_case_spec _).2 ⟨'u', by decide, by decide⟩).2).1
  · rfl

end Orchestration
